import Mathlib

/-!
Verification of the `mimic` repository (CLI dispatcher, toolbox GUI state
logic, reflective enumeration utility, version-control utility) against its
natural-language specification.

Python strings are modelled as `List Char`; Python `str.split`,
`str.splitlines`, `str.strip`, `str.startswith` and `str.join` are given
executable models below.  Python exceptions surface as `Option`/`Except`
results (`none` / `.error` models a raised exception).  Numpy float64
colour values are modelled as exact rationals.
-/

namespace Memic

/-! ## Python string primitives -/

/-- Worker for `pySplit`.  Scans the string one character at a time; a
positive `skip` counter consumes the remaining characters of a separator
that was already matched. -/
def splitAux (sep : List Char) : List Char → Nat → List Char → List (List Char)
  | [], _, acc => [acc.reverse]
  | _ :: cs, skip+1, acc => splitAux sep cs skip acc
  | c :: cs, 0, acc =>
    if sep.isPrefixOf (c :: cs) then
      acc.reverse :: splitAux sep cs (sep.length - 1) []
    else splitAux sep cs 0 (c :: acc)

/-- Python `s.split(sep)` for a non-empty separator `sep`. -/
def pySplit (sep s : List Char) : List (List Char) := splitAux sep s 0 []

/-- Python `s.startswith(p)`. -/
def pyStartsWith (p s : List Char) : Bool := p.isPrefixOf s

/-- Python whitespace characters (the set stripped by `str.strip`). -/
def pySpace (c : Char) : Bool :=
  c = ' ' ∨ c = '\t' ∨ c = '\n' ∨ c = '\x0d' ∨ c = '\x0b' ∨ c = '\x0c'

/-- Python `s.strip()`: remove leading and trailing whitespace. -/
def pyStrip (s : List Char) : List Char :=
  ((s.dropWhile pySpace).reverse.dropWhile pySpace).reverse

/-- Python `sep.join(parts)`. -/
def pyJoin (sep : List Char) (parts : List (List Char)) : List Char :=
  List.intercalate sep parts

/-- Python `s.splitlines()` for strings whose only line terminator is
`\n` (the shape produced by the shell output and log text handled by
this repository): split on newline, dropping the final empty piece a
trailing newline would produce; the empty string has no lines. -/
def pySplitlines (s : List Char) : List (List Char) :=
  if s = [] then []
  else
    let parts := pySplit ['\n'] s
    if parts.getLast? = some [] then parts.dropLast else parts

end Memic

namespace Memic.BetterEnumM

/-!  ## `src/memic/utility/better_enum.py`, `_BetterEnumMeta`

A `BetterEnum` class body is modelled as its `__dict__`: an ordered list
of (attribute name, attribute value) pairs.  A value is either a plain
object (`plain`, carrying its `str()` rendering), a `classmethod` object
(`cm`, carrying its `str()` rendering), or an object that itself offers
the `repr(max_lines)` rendering contract (`withRepr`, modelled by its
rendering function together with its `str()` fallback — this covers
nested `BetterEnum` classes, whose own `repr` satisfies the contract). -/

inductive PyVal where
  | plain (str : List Char)
  | cm (str : List Char)
  | withRepr (render : Nat → List Char) (str : List Char)

/-- Python `isinstance(v, classmethod)`. -/
def isClassmethod : PyVal → Bool
  | .cm _ => true
  | _ => false

/-- Python `str(value)` for the modelled values. -/
def strVal : PyVal → List Char
  | .plain s => s
  | .cm s => s
  | .withRepr _ s => s

/-- The class `__dict__`: attribute names with their values, in
declaration order. -/
abbrev Dict := List (List Char × PyVal)

/-- Python `key.startswith("_")`. -/
def underscoreKey (k : List Char) : Bool := pyStartsWith ['_'] k

/-- `_BetterEnumMeta.names`: the non-underscore attribute names, in
declaration order (classmethod-valued entries are NOT excluded). -/
def names (d : Dict) : List (List Char) :=
  (d.filter (fun kv => ¬ underscoreKey kv.1)).map (fun kv => kv.1)

/-- `_BetterEnumMeta.values`: the values of the non-underscore entries
whose value is not a `classmethod`. -/
def values (d : Dict) : List PyVal :=
  (d.filter (fun kv => ¬ underscoreKey kv.1 ∧ ¬ isClassmethod kv.2)).map
    (fun kv => kv.2)

/-- `_BetterEnumMeta.__iter__`: yields the value of every entry whose
name does not start with an underscore (classmethod values included). -/
def iterValues (d : Dict) : List PyVal :=
  (d.filter (fun kv => ¬ underscoreKey kv.1)).map (fun kv => kv.2)

/-- `_BetterEnumMeta.__len__`: `len(cls.values())`. -/
def enumLen (d : Dict) : Nat := (values d).length

/-- `_BetterEnumMeta.items`: `zip(cls.keys(), cls.values())` (note the
two lists are filtered differently, so `zip` truncates to the shorter). -/
def items (d : Dict) : List (List Char × PyVal) :=
  List.zip (names d) (values d)

/-- The rendering of one value inside `_BetterEnumMeta.repr`:
`value.repr(max([1, int(max_lines / count)]))` when the value supports
the rendering contract (with `int(None / count)` raising `TypeError`,
caught and replaced by `str(value)`), else `str(value)`. -/
def renderValue (v : PyVal) (maxLines : Option Nat) (count : Nat) : List Char :=
  match v with
  | .withRepr render _ =>
    match maxLines with
    | some m => render (max 1 (m / count))
    | none => strVal v
  | _ => strVal v

/-- The `for key, value in cls.items()` loop of `_BetterEnumMeta.repr`.
`n` is the running value of `n_keys`, which always equals
`len(repr_strs)` (each iteration appends exactly one string and
increments `n_keys` once).  Returns the list of strings appended from
the current iteration onwards. -/
def reprLoop (maxLines : Option Nat) (count : Nat) :
    List (List Char × PyVal) → Nat → List (List Char)
  | [], _ => []
  | (key, value) :: rest, n =>
    match maxLines with
    | none =>
      let valueStr := pyJoin "\n\t".data (pySplitlines (renderValue value none count))
      (key ++ ": ".data ++ valueStr) :: reprLoop none count rest (n + 1)
    | some m =>
      if n < m then
        let valueStr := pyJoin "\n\t".data (pySplitlines (renderValue value (some m) count))
        let entry :=
          if m < n + (pySplitlines valueStr).length then key ++ ": ...".data
          else key ++ ": ".data ++ valueStr
        entry :: reprLoop (some m) count rest (n + 1)
      else
        (key ++ ": ...".data) ::
          (if m ≤ n + 1 then [] else reprLoop (some m) count rest (n + 1))

/-- The body of `_BetterEnumMeta.repr` after the `max_lines == 1`
short-circuit: build `repr_strs`, join them into
`ClassName(content)`, switch to the indented block form when the line
is longer than `line_length`, and finally hard-truncate to `max_lines`
lines with a trailing `...` line. -/
def reprCore (maxLines : Option Nat) (lineLength : Nat) (name : List Char)
    (d : Dict) : List Char :=
  let its := items d
  let count := its.length
  let reprStrs := reprLoop maxLines count its 0
  let content := pyJoin ", ".data reprStrs
  let s := name ++ "(".data ++ content ++ ")".data
  let s :=
    if lineLength < s.length then
      name ++ ":\n".data ++ ("\t".data ++ pyJoin "\n\t".data reprStrs)
    else s
  match maxLines with
  | none => s
  | some m =>
    if m < (pySplitlines s).length then
      pyJoin "\n".data ((pySplitlines s).take (m - 1)) ++ "\n...".data
    else s

/-- `_BetterEnumMeta.repr(cls, max_lines, line_length)`: when
`max_lines == 1`, first render in full (`max_lines=None`) and return
that if it fits on one line; otherwise render with the line budget. -/
def enumRepr (maxLines : Option Nat) (lineLength : Nat) (name : List Char)
    (d : Dict) : List Char :=
  if maxLines = some 1 then
    let full := reprCore none lineLength name d
    if (pySplitlines full).length ≤ 1 then full
    else reprCore maxLines lineLength name d
  else reprCore maxLines lineLength name d

end Memic.BetterEnumM

namespace Memic.VersionControl

/-!  ## `src/memic/utility/version_control.py`, `VersionControl`

`VersionControl.call` shells out and returns the decoded standard
output, raising `subprocess.CalledProcessError` on a non-zero exit.
Each shell invocation is modelled as an oracle value of type
`Except Nat (List Char)`: `.ok out` is captured stdout, `.error code`
is a `CalledProcessError` with the given non-zero return code. -/

/-- Result of one `VersionControl.call` invocation. -/
abbrev CallResult := Except Nat (List Char)

/-- `VersionControl.git_latest_tag`, as a function of the results of its
two underlying shell calls (`git describe --tags --abbrev=0`, then
`git describe --tags $(git rev-list --tags --max-count=1)`).  The
`try/except CalledProcessError` wraps both calls and returns the empty
string on failure. -/
def git_latest_tag (describeTags : CallResult) (describeRevList : CallResult) :
    Except Nat (List Char) :=
  match describeTags with
  | .error _ => .ok []
  | .ok s =>
    if pyStrip s = [] then .ok []
    else
      match describeRevList with
      | .error _ => .ok []
      | .ok t => .ok (pyStrip t)

/-- The dictionary built by `VersionControl.interpret_commit_log`.  The
Python `merge` entry is `False` or a string; it is modelled as
`Option (List Char)`. -/
structure CommitInfo where
  commit : List Char
  merge : Option (List Char)
  author : List Char
  date : List Char
  message : List Char
deriving DecidableEq, Repr

/-- `VersionControl.interpret_commit_log(commit_log)`.  A `none` result
models an uncaught `IndexError` from `lines[i]` or `split(...)[1]`;
the `Option` binds follow Python evaluation order (`lines[1]` is read
first, by the `merge` test). -/
def interpret_commit_log (commit_log : List Char) : Option CommitInfo := do
  let lines := pySplitlines commit_log
  let line1 ← lines.get? 1
  let merge : Nat := if pyStartsWith "Merge: ".data line1 then 1 else 0
  let line0 ← lines.get? 0
  let commit ← (pySplit "commit ".data line0).get? 1
  let mergeVal ←
    if pyStartsWith "Merge: ".data line1 then
      ((pySplit "Merge: ".data line1).get? 1).map (fun m => some (pyStrip m))
    else some none
  let lineA ← lines.get? (1 + merge)
  let author ← (pySplit "Author: ".data lineA).get? 1
  let lineD ← lines.get? (2 + merge)
  let date ← (pySplit "Date: ".data lineD).get? 1
  some
    { commit := commit
      merge := mergeVal
      author := pyStrip author
      date := pyStrip date
      message := pyStrip (pyJoin ['\n'] (lines.drop (3 + merge))) }

end Memic.VersionControl

namespace Memic.Cli

/-!  ## `src/memic/cli/cli.py`, `Scripts._run`

The dispatcher resolves a command name through Python attribute lookup:
`hasattr(self, cmd)` on the `Scripts` instance, then `hasattr(Cmds, cmd)`
on the `Cmds` class, then the version flags, then `self.help(*args)`.
The attribute sets are taken from the source: the `Scripts` class body,
and the `Cmds` class body together with the public methods its
metaclass `_BetterEnumMeta` contributes to attribute lookup on the
class (attributes inherited from `object` / `Protocol` / `type` are
dunder or CPython plumbing names a CLI invocation would not name, and
are not enumerated). -/

/-- Names defined in the `Scripts` class body (methods found by
`hasattr(self, cmd)`). -/
def scriptsAttrs : List String :=
  ["fix", "fmt", "test", "toolbox", "cli", "enc", "encoder", "synth",
   "synthesizer", "_synthesizer_preprocess", "voc", "vocode", "vocoder",
   "_run", "get_help", "help"]

/-- Names found by `hasattr(Cmds, cmd)`: the `Cmds` class body (the
three alias token lists and its two classmethods) plus the methods
defined by the metaclass `_BetterEnumMeta` in `better_enum.py`. -/
def cmdsAttrs : List String :=
  ["jup", "console", "repl", "get_help", "help",
   "items", "keys", "names", "values", "get_name", "print"] ++ ["repr"]

/-- Shell tokens of the `jup` alias. -/
def jupTokens : List String :=
  ["jupyter", "notebook", "--ip=0.0.0.0", "--allow-root",
   "--notebook-dir=\x27src/jupyter\x27", "--NotebookApp.token=\x27\x27",
   "--NotebookApp.password=\x27\x27"]

/-- Shell tokens of the `console` alias. -/
def consoleTokens : List String := ["ipython", "-i", "-c"]

/-- Shell tokens of the `repl` alias. -/
def replTokens : List String := ["python", "-i", "-c"]

/-- The value `getattr(Cmds, cmd)` when it is a shell token list:
`some tokens` for the three alias entries, `none` for the other
attributes of `Cmds` (methods, not token lists — joining and running
them as a shell command fails). -/
def cmdsTokens : String → Option (List String)
  | "jup" => some jupTokens
  | "console" => some consoleTokens
  | "repl" => some replTokens
  | _ => none

/-- The action `Scripts._run` resolves an invocation to. -/
inductive CliAction where
  | callMethod (name : String) (args : List String)
  | aliasShell (tokens : Option (List String))
  | printVersion
  | callHelp (args : List String)
deriving DecidableEq, Repr

/-- `Scripts._run(self, cmd, *args)`: the four resolution branches in
source order.  Branch 2 logs the resolved attribute and executes
`" ".join(getattr(Cmds, cmd))` through the shell; branch 3 prints the
version and the git summary record fields; branch 4 calls
`self.help(*args)` — note the source passes only `args`, dropping
`cmd`. -/
def Scripts_run (cmd : String) (args : List String) : CliAction :=
  if cmd ∈ scriptsAttrs then .callMethod cmd args
  else if cmd ∈ cmdsAttrs then .aliasShell (cmdsTokens cmd)
  else if cmd = "-v" ∨ cmd = "--version" then .printVersion
  else .callHelp args

end Memic.Cli

namespace Memic.UI

/-!  ## `src/memic/toolbox/ui.py`, class `UI`

Only the state the claims are about is modelled: the utterance history
combo box (item list plus current index), the action-button disabled
flags, the record button, the rolling log buffer, the UMAP scatter
colour assignment, and the export-path logic.  Qt plumbing
(`blockSignals`, `processEvents`, canvas drawing) has no modelled
state. -/

/-- `UI.min_umap_points`. -/
def min_umap_points : Nat := 4

/-- `UI.max_log_lines`. -/
def max_log_lines : Nat := 5

/-- `UI.max_saved_utterances`. -/
def max_saved_utterances : Nat := 20

/-- The `Utterance` record from the vendored layer, as used by the UI:
a name, a speaker name, and an embedding of abstract type `E` (the
spectrogram plays no role in the modelled operations and is elided
with the embedding type). -/
structure Utterance (E : Type) where
  name : List Char
  speaker_name : List Char
  embed : E
deriving DecidableEq

/-- The state touched by `UI.register_utterance`: the utterance-history
combo box holds (label, data) items; `insertItem(0, name, utt)` adds
the pair at the front. -/
structure HistoryState (E : Type) where
  history : List (List Char × Utterance E)
  currentIndex : Nat
  playDisabled : Bool
  generateDisabled : Bool
  synthesizeDisabled : Bool
deriving DecidableEq

/-- `UI.register_utterance(utterance)`: insert at index 0, select index
0, drop the item at index `max_saved_utterances` when the box now holds
more than that many items, and enable the play / generate / synthesize
buttons. -/
def register_utterance {E : Type} (st : HistoryState E) (u : Utterance E) :
    HistoryState E :=
  let h := (u.name, u) :: st.history
  let h := if max_saved_utterances < h.length then h.eraseIdx max_saved_utterances else h
  { history := h
    currentIndex := 0
    playDisabled := false
    generateDisabled := false
    synthesizeDisabled := false }

/-- `UI.log(line, mode="newline")`: append the line and drop the oldest
one once more than `max_log_lines` are held. -/
def pushLog (logs : List (List Char)) (line : List Char) : List (List Char) :=
  let ls := logs ++ [line]
  if max_log_lines < ls.length then ls.drop 1 else ls

/-- The state touched by `UI.record_one`: the record button and the log
buffer (`set_loading`, `sd.stop` and `sleep` touch no modelled state). -/
structure RecordState where
  recordButtonText : List Char
  recordButtonDisabled : Bool
  logs : List (List Char)
deriving DecidableEq

/-- Outcome of the `sd.rec(duration * sample_rate, sample_rate, 1)`
hardware call: `some wav` on success, `none` when it raises. -/
abbrev RecResult (A : Type) := Option A

/-- `UI.record_one(sample_rate, duration)`: disable and relabel the
record button, log the duration line, attempt the hardware call; on
failure log the two failure lines and return `None` (the button is NOT
restored on this path); on success log completion, restore the button
and return the captured audio. -/
def record_one {A : Type} (st : RecordState) (duration : Nat)
    (recResult : RecResult A) : RecordState × Option A :=
  let durationLine :=
    "Recording ".data ++ (toString duration).data ++ " seconds of audio".data
  let causeLine :=
    "Could not record anything. Is your recording device enabled?".data
  let reminderLine :=
    "Your device must be connected before you start the toolbox.".data
  let st := { st with recordButtonText := "Recording...".data,
                      recordButtonDisabled := true }
  let st := { st with logs := pushLog st.logs durationLine }
  match recResult with
  | none =>
    let st := { st with logs := pushLog st.logs causeLine }
    let st := { st with logs := pushLog st.logs reminderLine }
    (st, none)
  | some wav =>
    let st := { st with logs := pushLog st.logs "Done recording.".data }
    let st := { st with recordButtonText := "Record".data,
                        recordButtonDisabled := false }
    (st, some wav)

/-- Lexicographic order on character lists, matching the ordering
`numpy.unique` applies to an array of strings. -/
def lexLe : List Char → List Char → Bool
  | [], _ => true
  | _ :: _, [] => false
  | a :: as, b :: bs => if a = b then lexLe as bs else decide (a < b)

/-- `np.unique(xs)` for a list of strings: the distinct values in
sorted order. -/
def npUnique (xs : List (List Char)) : List (List Char) :=
  List.insertionSort (fun a b => lexLe a b = true) xs.dedup

/-- The fixed speaker colour palette of `ui.py` (14 RGB rows divided by
255; float64 entries are modelled as exact rationals). -/
def colormap : List (ℚ × ℚ × ℚ) :=
  [(0/255, 127/255, 70/255), (255/255, 0/255, 0/255),
   (255/255, 217/255, 38/255), (0/255, 135/255, 255/255),
   (165/255, 0/255, 165/255), (255/255, 167/255, 255/255),
   (97/255, 142/255, 151/255), (0/255, 255/255, 255/255),
   (255/255, 96/255, 38/255), (142/255, 76/255, 0/255),
   (33/255, 0/255, 127/255), (0/255, 0/255, 0/255),
   (183/255, 183/255, 183/255), (76/255, 255/255, 0/255)]

/-- The sorted distinct speaker names of the displayed utterances:
`speakers = np.unique([u.speaker_name for u in utterances])` in
`UI.draw_umap_projections`. -/
def umapSpeakers {E : Type} (utterances : List (Utterance E)) : List (List Char) :=
  npUnique (utterances.map (fun u => u.speaker_name))

/-- The colour `UI.draw_umap_projections` assigns to one utterance:
`colors = {speaker_name: colormap[i] for i, speaker_name in
enumerate(speakers)}` then `colors[utterance.speaker_name]` at each
scatter call.  `none` models the `IndexError` raised when more than 14
distinct speakers are displayed. -/
def umapPointColor {E : Type} (utterances : List (Utterance E))
    (u : Utterance E) : Option (ℚ × ℚ × ℚ) :=
  colormap.get? (List.indexOf u.speaker_name (umapSpeakers utterances))

/-- The scatter-point colours, one per displayed utterance in display
order (`for projection, utterance in zip(projections, utterances)`). -/
def umapScatterColors {E : Type} (utterances : List (Utterance E)) :
    List (Option (ℚ × ℚ × ℚ)) :=
  utterances.map (fun u => umapPointColor utterances u)

/-- Modelled from the spec words of C7 (for comparison with the code):
the distinct speaker names in FIRST-SEEN order among the displayed
utterances. -/
def firstSeenSpeakers : List (List Char) → List (List Char)
  | [] => []
  | x :: xs => x :: (firstSeenSpeakers xs).filter (fun y => y ≠ x)

/-- Modelled from the spec words of C7: the colour assignment the claim
describes, palette indexed by first-seen position of the speaker name. -/
def claimPointColor {E : Type} (utterances : List (Utterance E))
    (u : Utterance E) : Option (ℚ × ℚ × ℚ) :=
  colormap.get?
    (List.indexOf u.speaker_name
      (firstSeenSpeakers (utterances.map (fun v => v.speaker_name))))

/-- Python `pathlib.Path(fpath).suffix`: the final `"."`-suffix of the
last non-empty path component, empty when the name has no dot, starts
with its only dot, or ends with its last dot. -/
def pathSuffix (fpath : List Char) : List Char :=
  let name := ((pySplit ['/'] fpath).filter (fun c => c ≠ [])).getLastD []
  match name.reverse.indexOf? '.' with
  | none => []
  | some rj =>
    let i := name.length - 1 - rj
    if 0 < i ∧ i < name.length - 1 then name.drop i else []

/-- `UI.save_audio_file(wav, sample_rate)`, as a function of the path
the file dialog returned.  The result is the write effect performed:
`some (path, wav, sample_rate)` for a `sf.write` call, `none` when the
dialog was cancelled (empty path) and the method returns having touched
nothing.  A non-empty path with an empty suffix gets `".wav"`
appended. -/
def save_audio_file {A : Type} (fpath : List Char) (wav : A)
    (sample_rate : Nat) : Option (List Char × A × Nat) :=
  if fpath ≠ [] then
    let fpath := if pathSuffix fpath = [] then fpath ++ ".wav".data else fpath
    some (fpath, wav, sample_rate)
  else none

end Memic.UI

namespace Memic.BetterEnumM

/-- A 100-character member value used to drive the rendering past the
80-character line width. -/
def longValue : List Char := List.replicate 100 'x'

/-- A concrete three-member enum class body whose first member value is
100 characters long. -/
def cexDict : Dict :=
  [("a".data, .plain longValue),
   ("b".data, .plain "1".data),
   ("c".data, .plain "2".data)]

/-- A concrete enum class body with one plain member and one
classmethod-valued public member (as in `Cmds`, whose `get_help` and
`help` are classmethods). -/
def cmDict : Dict :=
  [("a".data, .plain "1".data),
   ("help".data, .cm "classmethod object".data)]

end Memic.BetterEnumM

namespace Memic.UI

/-- Concrete displayed utterances: three by speaker `bob` (first seen)
followed by one by speaker `alice`. -/
def uttsCex : List (Utterance Unit) :=
  [⟨"u1".data, "bob".data, ()⟩, ⟨"u2".data, "bob".data, ()⟩,
   ⟨"u3".data, "bob".data, ()⟩, ⟨"u4".data, "alice".data, ()⟩]

/-- The first displayed utterance of `uttsCex`. -/
def uttCexHead : Utterance Unit := ⟨"u1".data, "bob".data, ()⟩

/-- A concrete utterance-history state already holding 20 items. -/
def hist20 : HistoryState Unit :=
  { history := List.replicate 20 ("x".data, ⟨"x".data, "s".data, ()⟩)
    currentIndex := 3
    playDisabled := true
    generateDisabled := true
    synthesizeDisabled := true }

/-- A fresh utterance to register on top of `hist20`. -/
def uttNew : Utterance Unit := ⟨"new".data, "s".data, ()⟩

/-- A record-page state before a recording attempt: button enabled,
empty log. -/
def recSt0 : RecordState := ⟨"Record".data, false, []⟩

end Memic.UI

open Memic

/-- C1: registering an utterance inserts it at index 0 of the history,
makes it the current selection, and keeps the history at no more than 20
entries — when the insertion makes 21 the entry at index 20 (the oldest)
is removed, which is exactly a truncation of the extended history to its
first 20 entries. -/
theorem register_utterance_bounded {E : Type} (st : UI.HistoryState E)
    (u : UI.Utterance E) (h : st.history.length ≤ UI.max_saved_utterances) :
    (UI.register_utterance st u).history =
      ((u.name, u) :: st.history).take UI.max_saved_utterances
    ∧ (UI.register_utterance st u).history.get? 0 = some (u.name, u)
    ∧ (UI.register_utterance st u).currentIndex = 0
    ∧ (UI.register_utterance st u).history.length ≤ UI.max_saved_utterances := by
  have hhist : (UI.register_utterance st u).history =
      ((u.name, u) :: st.history).take UI.max_saved_utterances := by
    unfold UI.register_utterance
    dsimp only
    split
    · next hlong =>
      have hlen : ((u.name, u) :: st.history).length = UI.max_saved_utterances + 1 := by
        simp only [List.length_cons] at hlong ⊢
        omega
      rw [List.eraseIdx_eq_take_drop_succ]
      have : ((u.name, u) :: st.history).drop (UI.max_saved_utterances + 1) = [] := by
        apply List.drop_eq_nil_of_le
        omega
      rw [this, List.append_nil]
    · next hshort =>
      rw [List.take_of_length_le]
      simp only [List.length_cons] at hshort ⊢
      omega
  refine ⟨hhist, ?_, rfl, ?_⟩
  · rw [hhist]
    have : (0 : Nat) < UI.max_saved_utterances := by decide
    rw [List.get?_take this]
    rfl
  · rw [hhist, List.length_take]
    omega

/-- C1 witness: registering a fresh utterance on a full 20-entry history
keeps the bound, puts the new entry at index 0 and selects it. -/
theorem register_utterance_bounded_witness :
    UI.hist20.history.length ≤ UI.max_saved_utterances
    ∧ ((UI.register_utterance UI.hist20 UI.uttNew).history =
        ((UI.uttNew.name, UI.uttNew) :: UI.hist20.history).take UI.max_saved_utterances
      ∧ (UI.register_utterance UI.hist20 UI.uttNew).history.get? 0 =
          some (UI.uttNew.name, UI.uttNew)
      ∧ (UI.register_utterance UI.hist20 UI.uttNew).currentIndex = 0
      ∧ (UI.register_utterance UI.hist20 UI.uttNew).history.length ≤
          UI.max_saved_utterances) :=
  ⟨by decide, register_utterance_bounded UI.hist20 UI.uttNew (by decide)⟩

/-- C3: `git_latest_tag` never propagates a failure of either underlying
shell call — the result is always a successfully returned string; a
failing first or second call yields the empty string, and when the calls
succeed with a tag present the tag name is returned stripped of
surrounding whitespace. -/
theorem git_latest_tag_swallows_failure (dT dR : VersionControl.CallResult) :
    (∃ s, VersionControl.git_latest_tag dT dR = .ok s)
    ∧ (∀ code, dT = .error code → VersionControl.git_latest_tag dT dR = .ok [])
    ∧ (∀ code, dR = .error code → VersionControl.git_latest_tag dT dR = .ok [])
    ∧ (∀ s t, dT = .ok s → pyStrip s ≠ [] → dR = .ok t →
        VersionControl.git_latest_tag dT dR = .ok (pyStrip t)) := by
  cases dT with
  | error code =>
    refine ⟨⟨[], rfl⟩, fun _ _ => rfl, fun _ _ => rfl, ?_⟩
    intro s t hs
    exact absurd hs (by simp)
  | ok s =>
    by_cases hstrip : pyStrip s = []
    · refine ⟨⟨[], ?_⟩, ?_, ?_, ?_⟩
      · simp [VersionControl.git_latest_tag, hstrip]
      · intro code hc; exact absurd hc (by simp)
      · intro code hc; simp [VersionControl.git_latest_tag, hstrip]
      · intro s' t hs' hne
        rw [Except.ok.injEq] at hs'
        subst hs'
        exact absurd hstrip hne
    · cases dR with
      | error code =>
        refine ⟨⟨[], ?_⟩, ?_, ?_, ?_⟩
        · simp [VersionControl.git_latest_tag, hstrip]
        · intro c hc; exact absurd hc (by simp)
        · intro c _; simp [VersionControl.git_latest_tag, hstrip]
        · intro s' t _ _ ht; exact absurd ht (by simp)
      | ok t =>
        refine ⟨⟨pyStrip t, ?_⟩, ?_, ?_, ?_⟩
        · simp [VersionControl.git_latest_tag, hstrip]
        · intro c hc; exact absurd hc (by simp)
        · intro c hc; exact absurd hc (by simp)
        · intro s' t' hs' _ ht'
          rw [Except.ok.injEq] at hs' ht'
          subst hs'; subst ht'
          simp [VersionControl.git_latest_tag, hstrip]

/-- C3 witness: with the first call failing with exit code 128 (no tags
exist) the query returns the empty string, and with both calls
succeeding the stripped tag is returned. -/
theorem git_latest_tag_swallows_failure_witness :
    VersionControl.git_latest_tag (.error 128) (.ok "v1".data) = .ok []
    ∧ VersionControl.git_latest_tag (.ok "v1.0\n".data) (.ok " v1.2.3\n".data) =
        .ok (pyStrip " v1.2.3\n".data) :=
  ⟨(git_latest_tag_swallows_failure (.error 128) (.ok "v1".data)).2.1 128 rfl,
   (git_latest_tag_swallows_failure (.ok "v1.0\n".data)
        (.ok " v1.2.3\n".data)).2.2.2 "v1.0\n".data " v1.2.3\n".data rfl
     (by decide) rfl⟩

/-- C10: a cancelled export dialog (empty path) performs no write; a
chosen path with an empty suffix is written with `.wav` appended, and a
path that already has a suffix is written unchanged. -/
theorem save_audio_file_write_effect {A : Type} (wav : A) (sr : Nat) :
    UI.save_audio_file ([] : List Char) wav sr = none
    ∧ (∀ fpath, fpath ≠ [] → UI.pathSuffix fpath = [] →
        UI.save_audio_file fpath wav sr = some (fpath ++ ".wav".data, wav, sr))
    ∧ (∀ fpath, fpath ≠ [] → UI.pathSuffix fpath ≠ [] →
        UI.save_audio_file fpath wav sr = some (fpath, wav, sr)) := by
  refine ⟨rfl, ?_, ?_⟩
  · intro fpath hne hsufe
    simp [UI.save_audio_file, hne, hsufe]
  · intro fpath hne hsuf
    simp [UI.save_audio_file, hne, hsuf]

/-- C10 witness: exporting to `/tmp/myout` (no extension) writes
`/tmp/myout.wav`; exporting to `/tmp/out.flac` writes it unchanged; an
empty path writes nothing. -/
theorem save_audio_file_write_effect_witness :
    UI.save_audio_file ([] : List Char) () 16000 = none
    ∧ UI.save_audio_file "/tmp/myout".data () 16000 =
        some ("/tmp/myout".data ++ ".wav".data, (), 16000)
    ∧ UI.save_audio_file "/tmp/out.flac".data () 16000 =
        some ("/tmp/out.flac".data, (), 16000) :=
  ⟨(save_audio_file_write_effect () 16000).1,
   (save_audio_file_write_effect () 16000).2.1 "/tmp/myout".data (by decide) (by decide),
   (save_audio_file_write_effect () 16000).2.2 "/tmp/out.flac".data (by decide) (by decide)⟩

/-- C6 counterexample: starting from an enabled record button, a failing
hardware call leaves the record button disabled — the claim that the
record button is re-enabled after the failure is false (the source
restores the button only on the success path). -/
theorem record_one_failure_button_stays_disabled :
    ¬ ((UI.record_one (A := Unit) UI.recSt0 5 none).1.recordButtonDisabled = false) := by
  decide

/-- C6 amended: when the hardware record call raises, `record_one`
catches the failure, appends exactly two log lines after the
duration announcement (the proximate cause, then the reminder that the
device must be connected before launch), yields no audio — but the
record button is left disabled and still labelled `Recording...`;
re-enabling happens only on the success path. -/
theorem record_one_failure_path {A : Type} (st : UI.RecordState) (duration : Nat) :
    (UI.record_one (A := A) st duration none).2 = none
    ∧ (UI.record_one (A := A) st duration none).1.logs =
        UI.pushLog (UI.pushLog (UI.pushLog st.logs
            ("Recording ".data ++ (toString duration).data ++ " seconds of audio".data))
          "Could not record anything. Is your recording device enabled?".data)
          "Your device must be connected before you start the toolbox.".data
    ∧ (UI.record_one (A := A) st duration none).1.recordButtonDisabled = true
    ∧ (UI.record_one (A := A) st duration none).1.recordButtonText =
        "Recording...".data := by
  refine ⟨rfl, rfl, rfl, rfl⟩

/-- C2 counterexample: an unrecognized command falls through to the help
routine, but the source calls `self.help(*args)` — the command name
itself is dropped, so help is NOT called with `<cmd>` and the remaining
arguments as the claim states. -/
theorem Scripts_run_help_fallback_drops_cmd :
    ¬ (Cli.Scripts_run "frobnicate" ["int"] =
        Cli.CliAction.callHelp ["frobnicate", "int"]) := by
  decide

/-- C2 amended: resolution tries the four branches in order, but branch
1 matches any attribute of the scripts object, branch 2 matches any
attribute of the alias-table class (its three alias entries or the
helper methods contributed by the enumeration metaclass, for which the
shell-execution step has no token list), and the final fallback calls
the help routine with only the remaining arguments, dropping the
unrecognized command name.  The three alias entries, `-v` and
`--version` resolve as the claim describes. -/
theorem Scripts_run_resolution (cmd : String) (args : List String) :
    (cmd ∈ Cli.scriptsAttrs → Cli.Scripts_run cmd args = .callMethod cmd args)
    ∧ (cmd ∉ Cli.scriptsAttrs → cmd ∈ Cli.cmdsAttrs →
        Cli.Scripts_run cmd args = .aliasShell (Cli.cmdsTokens cmd))
    ∧ (cmd ∉ Cli.scriptsAttrs → cmd ∉ Cli.cmdsAttrs →
        (cmd = "-v" ∨ cmd = "--version") →
        Cli.Scripts_run cmd args = .printVersion)
    ∧ (cmd ∉ Cli.scriptsAttrs → cmd ∉ Cli.cmdsAttrs →
        cmd ≠ "-v" → cmd ≠ "--version" →
        Cli.Scripts_run cmd args = .callHelp args)
    ∧ Cli.Scripts_run "jup" args = .aliasShell (some Cli.jupTokens)
    ∧ Cli.Scripts_run "console" args = .aliasShell (some Cli.consoleTokens)
    ∧ Cli.Scripts_run "repl" args = .aliasShell (some Cli.replTokens)
    ∧ Cli.Scripts_run "-v" args = .printVersion
    ∧ Cli.Scripts_run "--version" args = .printVersion := by
  refine ⟨?_, ?_, ?_, ?_, rfl, rfl, rfl, rfl, rfl⟩
  · intro h1
    simp [Cli.Scripts_run, h1]
  · intro h1 h2
    simp [Cli.Scripts_run, h1, h2]
  · intro h1 h2 h3
    simp [Cli.Scripts_run, h1, h2, h3]
  · intro h1 h2 h3 h4
    simp [Cli.Scripts_run, h1, h2, h3, h4]

/-- C2 amended witness: the `fix` script method, the `jup` alias and an
unknown name each resolve through their branch at a concrete
invocation. -/
theorem Scripts_run_resolution_witness :
    Cli.Scripts_run "fix" ["x"] = .callMethod "fix" ["x"]
    ∧ Cli.Scripts_run "jup" [] = .aliasShell (some Cli.jupTokens)
    ∧ Cli.Scripts_run "doesnotexist" ["y"] = .callHelp ["y"] :=
  ⟨(Scripts_run_resolution "fix" ["x"]).1 (by decide),
   (Scripts_run_resolution "jup" []).2.2.2.2.1,
   (Scripts_run_resolution "doesnotexist" ["y"]).2.2.2.1 (by decide) (by decide)
     (by decide) (by decide)⟩

/-- C8 counterexample: for a class with a classmethod-valued public
member (as `Cmds` has), the count operation does not equal the number of
values produced by iterating: iteration yields the classmethod too,
count excludes it. -/
theorem enumLen_ne_iterValues_length :
    ¬ (BetterEnumM.enumLen BetterEnumM.cmDict =
        (BetterEnumM.iterValues BetterEnumM.cmDict).length) := by
  decide

/-- C8 amended: iteration ranges over the values of every member whose
name does not start with an underscore — classmethod values included —
while count excludes classmethod values; the two agree exactly for
classes none of whose public members is a classmethod. -/
theorem enumLen_eq_iter_length_of_no_classmethod (d : BetterEnumM.Dict)
    (h : ∀ kv ∈ d, BetterEnumM.underscoreKey kv.1 = false →
        BetterEnumM.isClassmethod kv.2 = false) :
    BetterEnumM.enumLen d = (BetterEnumM.iterValues d).length
    ∧ BetterEnumM.iterValues d =
        (d.filter (fun kv => ¬ BetterEnumM.underscoreKey kv.1)).map
          (fun kv => kv.2) := by
  have hfilter :
      d.filter (fun kv => ¬ BetterEnumM.underscoreKey kv.1 ∧
          ¬ BetterEnumM.isClassmethod kv.2)
        = d.filter (fun kv => ¬ BetterEnumM.underscoreKey kv.1) := by
    apply List.filter_congr
    intro kv hkv
    cases hu : BetterEnumM.underscoreKey kv.1
    · simp [h kv hkv hu]
    · simp
  refine ⟨?_, rfl⟩
  unfold BetterEnumM.enumLen BetterEnumM.values BetterEnumM.iterValues
  rw [hfilter]

/-- C8 amended witness: for a two-member class with no classmethod
members, count and iteration length agree. -/
theorem enumLen_eq_iter_length_witness :
    BetterEnumM.enumLen
        [(['a'], BetterEnumM.PyVal.plain ['1']), (['b'], BetterEnumM.PyVal.plain ['2'])] =
      (BetterEnumM.iterValues
        [(['a'], BetterEnumM.PyVal.plain ['1']), (['b'], BetterEnumM.PyVal.plain ['2'])]).length :=
  (enumLen_eq_iter_length_of_no_classmethod
      [(['a'], BetterEnumM.PyVal.plain ['1']), (['b'], BetterEnumM.PyVal.plain ['2'])]
      (by decide)).1

/-- Joining a one-element list is the element itself. -/
theorem pyJoin_singleton (sep x : List Char) : pyJoin sep [x] = x := by
  simp [pyJoin, List.intercalate]

/-- C4: on a 4-line commit log whose second line does not start with
`Merge: `, `interpret_commit_log` returns `merge = False` (modelled
`none`) and the commit hash, author, date and message parsed from lines
1, 2, 3, 4 respectively; on a 5-line log whose second line starts with
`Merge: `, `merge` holds that line's trailing content (stripped) and
the author/date/message fields are parsed one line lower. -/
theorem interpret_commit_log_fixed_shapes :
    (∀ s a b c d hsh au dt : List Char,
      pySplitlines s = [a, b, c, d] →
      pyStartsWith "Merge: ".data b = false →
      (pySplit "commit ".data a).get? 1 = some hsh →
      (pySplit "Author: ".data b).get? 1 = some au →
      (pySplit "Date: ".data c).get? 1 = some dt →
      VersionControl.interpret_commit_log s =
        some ⟨hsh, none, pyStrip au, pyStrip dt, pyStrip d⟩)
    ∧ (∀ s a b c d e hsh mg au dt : List Char,
      pySplitlines s = [a, b, c, d, e] →
      pyStartsWith "Merge: ".data b = true →
      (pySplit "commit ".data a).get? 1 = some hsh →
      (pySplit "Merge: ".data b).get? 1 = some mg →
      (pySplit "Author: ".data c).get? 1 = some au →
      (pySplit "Date: ".data d).get? 1 = some dt →
      VersionControl.interpret_commit_log s =
        some ⟨hsh, some (pyStrip mg), pyStrip au, pyStrip dt, pyStrip e⟩) := by
  constructor
  · intro s a b c d hsh au dt hsplit hmerge hcommit hauthor hdate
    simp only [List.get?_eq_getElem?] at hcommit hauthor hdate
    simp only [VersionControl.interpret_commit_log, hsplit]
    simp [hmerge, hcommit, hauthor, hdate, pyJoin_singleton]
  · intro s a b c d e hsh mg au dt hsplit hmerge hcommit hmg hauthor hdate
    simp only [List.get?_eq_getElem?] at hcommit hmg hauthor hdate
    simp only [VersionControl.interpret_commit_log, hsplit]
    simp [hmerge, hcommit, hmg, hauthor, hdate, pyJoin_singleton]

/-- C4 witness: a concrete plain commit log and a concrete merge commit
log parse to the expected records. -/
theorem interpret_commit_log_fixed_shapes_witness :
    VersionControl.interpret_commit_log
        "commit abc123\nAuthor: Bob <bob@x.io>\nDate:   Mon Jan 1 2024\n    fix stuff".data =
      some ⟨"abc123".data, none, pyStrip "Bob <bob@x.io>".data,
        pyStrip "  Mon Jan 1 2024".data, pyStrip "    fix stuff".data⟩
    ∧ VersionControl.interpret_commit_log
        "commit abc123\nMerge: 111 222\nAuthor: Bob <bob@x.io>\nDate:   Mon Jan 1 2024\n    merged".data =
      some ⟨"abc123".data, some (pyStrip "111 222".data),
        pyStrip "Bob <bob@x.io>".data, pyStrip "  Mon Jan 1 2024".data,
        pyStrip "    merged".data⟩ :=
  ⟨interpret_commit_log_fixed_shapes.1
      "commit abc123\nAuthor: Bob <bob@x.io>\nDate:   Mon Jan 1 2024\n    fix stuff".data
      "commit abc123".data "Author: Bob <bob@x.io>".data
      "Date:   Mon Jan 1 2024".data "    fix stuff".data
      "abc123".data "Bob <bob@x.io>".data "  Mon Jan 1 2024".data
      (by decide) (by decide) (by decide) (by decide) (by decide),
   interpret_commit_log_fixed_shapes.2
      "commit abc123\nMerge: 111 222\nAuthor: Bob <bob@x.io>\nDate:   Mon Jan 1 2024\n    merged".data
      "commit abc123".data "Merge: 111 222".data "Author: Bob <bob@x.io>".data
      "Date:   Mon Jan 1 2024".data "    merged".data
      "abc123".data "111 222".data "Bob <bob@x.io>".data "  Mon Jan 1 2024".data
      (by decide) (by decide) (by decide) (by decide) (by decide) (by decide)⟩

/-- C9: `interpret_commit_log` is total only under a format
precondition.  An input with at most one line (in particular the empty
string or a single-line string) makes the `lines[1]` access raise —
modelled by the `none` result — rather than returning an absent or
default record; an input of at least 4 lines whose first line splits at
`commit `, whose second line contains `Author: ` and whose third
contains `Date: ` (or, when the second line starts with `Merge: `, with
author and date on the following two lines) returns a record without
error. -/
theorem interpret_commit_log_totality :
    (∀ s : List Char, (pySplitlines s).length ≤ 1 →
      VersionControl.interpret_commit_log s = none)
    ∧ (∀ (s a b c d : List Char) (rest : List (List Char))
        (hsh au dt : List Char),
      pySplitlines s = a :: b :: c :: d :: rest →
      pyStartsWith "Merge: ".data b = false →
      (pySplit "commit ".data a).get? 1 = some hsh →
      (pySplit "Author: ".data b).get? 1 = some au →
      (pySplit "Date: ".data c).get? 1 = some dt →
      (VersionControl.interpret_commit_log s).isSome = true)
    ∧ (∀ (s a b c d : List Char) (rest : List (List Char))
        (hsh mg au dt : List Char),
      pySplitlines s = a :: b :: c :: d :: rest →
      pyStartsWith "Merge: ".data b = true →
      (pySplit "commit ".data a).get? 1 = some hsh →
      (pySplit "Merge: ".data b).get? 1 = some mg →
      (pySplit "Author: ".data c).get? 1 = some au →
      (pySplit "Date: ".data d).get? 1 = some dt →
      (VersionControl.interpret_commit_log s).isSome = true) := by
  refine ⟨?_, ?_, ?_⟩
  · intro s hlen
    have h1 : (pySplitlines s).get? 1 = none := List.get?_eq_none.mpr hlen
    simp only [List.get?_eq_getElem?] at h1
    simp [VersionControl.interpret_commit_log, h1]
  · intro s a b c d rest hsh au dt hsplit hmerge hcommit hauthor hdate
    simp only [List.get?_eq_getElem?] at hcommit hauthor hdate
    simp only [VersionControl.interpret_commit_log, hsplit]
    simp [hmerge, hcommit, hauthor, hdate]
  · intro s a b c d rest hsh mg au dt hsplit hmerge hcommit hmg hauthor hdate
    simp only [List.get?_eq_getElem?] at hcommit hmg hauthor hdate
    simp only [VersionControl.interpret_commit_log, hsplit]
    simp [hmerge, hcommit, hmg, hauthor, hdate]

/-- C9 witness: the empty string and a one-line string produce the
error result, while a concrete well-formed 4-line log parses
successfully. -/
theorem interpret_commit_log_totality_witness :
    VersionControl.interpret_commit_log [] = none
    ∧ VersionControl.interpret_commit_log "hello".data = none
    ∧ (VersionControl.interpret_commit_log
        "commit abc123\nAuthor: Bob\nDate: Mon Jan 1 2024\nmsg".data).isSome = true :=
  ⟨interpret_commit_log_totality.1 [] (by decide),
   interpret_commit_log_totality.1 "hello".data (by decide),
   interpret_commit_log_totality.2.1
      "commit abc123\nAuthor: Bob\nDate: Mon Jan 1 2024\nmsg".data
      "commit abc123".data "Author: Bob".data "Date: Mon Jan 1 2024".data
      "msg".data [] "abc123".data "Bob".data "Mon Jan 1 2024".data
      (by decide) (by decide) (by decide) (by decide) (by decide)⟩

/-- Hard truncation to a one-line budget: the final step of the
rendering either keeps a string that already fits one line or replaces
it by the fixed newline-ellipsis string. -/
theorem truncate_one (s : List Char) :
    (pySplitlines (if 1 < (pySplitlines s).length
        then pyJoin "\n".data ((pySplitlines s).take (1 - 1)) ++ "\n...".data
        else s)).length ≤ 1
    ∨ (if 1 < (pySplitlines s).length
        then pyJoin "\n".data ((pySplitlines s).take (1 - 1)) ++ "\n...".data
        else s) = "\n...".data := by
  split
  · right
    simp [pyJoin, List.intercalate]
  · left
    omega

/-- Rendering with a one-line budget either stays on one line or is the
newline-ellipsis string. -/
theorem reprCore_maxlines_one (L : Nat) (name : List Char) (d : BetterEnumM.Dict) :
    (pySplitlines (BetterEnumM.reprCore (some 1) L name d)).length ≤ 1
    ∨ BetterEnumM.reprCore (some 1) L name d = "\n...".data := by
  unfold BetterEnumM.reprCore
  exact truncate_one _

set_option maxRecDepth 8000 in
/-- C5 counterexample: a three-member enum whose first member value is
100 characters long renders under `max_lines=1` and the default width
80 to the two-line string consisting of an empty line followed by the
ellipsis marker — more than one line, contradicting the claim. -/
theorem enumRepr_cex_not_one_line :
    ¬ ((pySplitlines (BetterEnumM.enumRepr (some 1) 80 "E".data
        BetterEnumM.cexDict)).length ≤ 1) := by
  decide

/-- C5 amended: rendering a three-member reflective enumeration with a
maximum line count of 1 and the default width 80 returns at most TWO
lines; whenever the output exceeds one line it is exactly the hard
truncation result — an empty line followed by the ellipsis marker
`...` — so a truncated output always ends with the ellipsis marker. -/
theorem enumRepr_maxlines_one_bound (name : List Char) (d : BetterEnumM.Dict)
    (h3 : (BetterEnumM.items d).length = 3) :
    (pySplitlines (BetterEnumM.enumRepr (some 1) 80 name d)).length ≤ 2
    ∧ ((pySplitlines (BetterEnumM.enumRepr (some 1) 80 name d)).length = 2 →
        BetterEnumM.enumRepr (some 1) 80 name d = "\n...".data) := by
  have hc := reprCore_maxlines_one 80 name d
  have hres : BetterEnumM.enumRepr (some 1) 80 name d =
      if (pySplitlines (BetterEnumM.reprCore none 80 name d)).length ≤ 1
      then BetterEnumM.reprCore none 80 name d
      else BetterEnumM.reprCore (some 1) 80 name d := by
    unfold BetterEnumM.enumRepr
    rw [if_pos rfl]
  rw [hres]
  split
  · next hfull => exact ⟨by omega, fun h => by omega⟩
  · next hfull =>
    rcases hc with h1 | h2
    · exact ⟨by omega, fun h => by omega⟩
    · rw [h2]
      exact ⟨by decide, fun _ => rfl⟩

set_option maxRecDepth 8000 in
/-- C5 amended witness: the concrete three-member class renders within
the two-line bound, and its two-line output is the ellipsis string. -/
theorem enumRepr_maxlines_one_bound_witness :
    (BetterEnumM.items BetterEnumM.cexDict).length = 3
    ∧ ((pySplitlines (BetterEnumM.enumRepr (some 1) 80 "E".data
          BetterEnumM.cexDict)).length ≤ 2
      ∧ ((pySplitlines (BetterEnumM.enumRepr (some 1) 80 "E".data
            BetterEnumM.cexDict)).length = 2 →
          BetterEnumM.enumRepr (some 1) 80 "E".data BetterEnumM.cexDict =
            "\n...".data)) :=
  ⟨by decide, enumRepr_maxlines_one_bound "E".data BetterEnumM.cexDict (by decide)⟩

/-- Looking up a member at its `indexOf` position yields the member. -/
theorem indexOf_get?_of_mem {α : Type _} [BEq α] [LawfulBEq α] {a : α}
    {l : List α} (h : a ∈ l) : l.get? (l.indexOf a) = some a := by
  induction l with
  | nil => cases h
  | cons x xs ih =>
    rw [List.indexOf_cons]
    cases hx : x == a with
    | true =>
      have hxa : x = a := eq_of_beq hx
      simp [hx, hxa]
    | false =>
      have hne : x ≠ a := fun he => by simp [he] at hx
      have hmem : a ∈ xs := by
        cases h with
        | head => exact absurd rfl hne
        | tail _ htl => exact htl
      simp only [hx, cond_false, List.get?_cons_succ]
      exact ih hmem

/-- C7 counterexample: with displayed utterances by speakers
`bob, bob, bob, alice` (bob first seen), the code colours a `bob` point
with palette entry 1 — `np.unique` sorts the speaker names, placing
`alice` first — while the claim's first-seen assignment would give
`bob` palette entry 0; the two colour assignments differ at this
concrete input. -/
theorem umap_color_is_sorted_not_first_seen :
    UI.umapPointColor UI.uttsCex UI.uttCexHead ≠
      UI.claimPointColor UI.uttsCex UI.uttCexHead := by
  have h1 : UI.umapPointColor UI.uttsCex UI.uttCexHead = UI.colormap.get? 1 := rfl
  have h2 : UI.claimPointColor UI.uttsCex UI.uttCexHead = UI.colormap.get? 0 := rfl
  rw [h1, h2]
  simp only [UI.colormap]
  norm_num

/-- C7 amended: in the projection view with at least 4 displayed
utterances, each point's colour is the palette entry indexed by the
position of the point's speaker name in the LEXICOGRAPHICALLY SORTED
list of distinct displayed speaker names (the `np.unique` order), and
that position is uniquely determined. -/
theorem umap_point_color_sorted_rank {E : Type} (utts : List (UI.Utterance E))
    (u : UI.Utterance E) (hu : u ∈ utts)
    (h4 : UI.min_umap_points ≤ utts.length) :
    ∃ i, (UI.umapSpeakers utts).get? i = some u.speaker_name
      ∧ UI.umapPointColor utts u = UI.colormap.get? i
      ∧ ∀ j, (UI.umapSpeakers utts).get? j = some u.speaker_name → j = i := by
  have hmem : u.speaker_name ∈ UI.umapSpeakers utts := by
    unfold UI.umapSpeakers UI.npUnique
    have hmap : u.speaker_name ∈ utts.map (fun v => v.speaker_name) :=
      List.mem_map_of_mem _ hu
    exact ((List.perm_insertionSort _ _).mem_iff).mpr (List.mem_dedup.mpr hmap)
  have hnodup : (UI.umapSpeakers utts).Nodup := by
    unfold UI.umapSpeakers UI.npUnique
    exact ((List.perm_insertionSort _ _).nodup_iff).mpr (List.nodup_dedup _)
  have hidx : (UI.umapSpeakers utts).get?
      ((UI.umapSpeakers utts).indexOf u.speaker_name) = some u.speaker_name :=
    indexOf_get?_of_mem hmem
  refine ⟨(UI.umapSpeakers utts).indexOf u.speaker_name, hidx, rfl, ?_⟩
  intro j hj
  have hjlt : j < (UI.umapSpeakers utts).length := by
    by_contra hge
    rw [List.get?_eq_none.mpr (le_of_not_lt hge)] at hj
    exact Option.noConfusion hj
  apply List.getElem?_inj hjlt hnodup
  simp only [← List.get?_eq_getElem?]
  rw [hj, hidx]

/-- C7 amended witness: the first `bob` point of the concrete display
set carries the palette entry of `bob`'s rank in the sorted distinct
speaker list. -/
theorem umap_point_color_sorted_rank_witness :
    UI.uttCexHead ∈ UI.uttsCex
    ∧ UI.min_umap_points ≤ UI.uttsCex.length
    ∧ (∃ i, (UI.umapSpeakers UI.uttsCex).get? i = some UI.uttCexHead.speaker_name
        ∧ UI.umapPointColor UI.uttsCex UI.uttCexHead = UI.colormap.get? i
        ∧ ∀ j, (UI.umapSpeakers UI.uttsCex).get? j =
            some UI.uttCexHead.speaker_name → j = i) :=
  ⟨by decide, by decide,
   umap_point_color_sorted_rank UI.uttsCex UI.uttCexHead (by decide) (by decide)⟩
